import Mathlib

/-!
Shallow embedding of the game-analysis and profiling pipeline of the
chess-agent repository (`analyse.py`, `build_profile.py`), together with
theorems settling the specification claims about it.

Conventions of the embedding:
* Python ints are `ℤ` (move numbers and list indices are `ℕ`).
* The external chess library (`python-chess`) is abstracted: a move is an
  opaque identifier (`Move := ℕ`), a board is the list of moves pushed so
  far starting from the standard initial position, `board.turn` is derived
  from the number of plies played (White first), and `board.fen()` — used
  only as a position fingerprint — is the move list itself.
* The external engine (`stockfish.get_evaluation` after
  `set_fen_position`) is a function from a position fingerprint to
  `Option Evaluation`; `none` models "no evaluation returned".
* Fallible Python code (raised exceptions) is `Except String`.
-/

/-- A Stockfish evaluation: `{"type": "cp", "value": v}` or
`{"type": "mate", "value": v}`. -/
inductive Evaluation where
  | cp (value : ℤ)
  | mate (value : ℤ)
deriving DecidableEq, Repr

/-- Whether an evaluation is mate-typed (`evaluation["type"] == "mate"`). -/
def Evaluation.isMate : Evaluation → Bool
  | .cp _ => false
  | .mate _ => true

/-- One entry of a side's evaluation list built by `evaluate_game`:
`{"move_number": n, "evaluation": e}`. -/
structure EvalPoint where
  move_number : ℕ
  evaluation : Evaluation
deriving DecidableEq, Repr

/-- The value stored in a Dip's `score_before`/`score_after` field: a bare
centipawn integer in the cp/cp branch, or the raw evaluation dict in the
mate-involved branch. -/
inductive ScoreField where
  | num (v : ℤ)
  | raw (e : Evaluation)
deriving DecidableEq, Repr

/-- The value stored in a Dip's `delta` field: a centipawn difference, or
the string sentinel `"mate involved"`. -/
inductive DipDelta where
  | cpDelta (d : ℤ)
  | mateInvolved
deriving DecidableEq, Repr

/-- A detected dip, as built by `find_significant_dips`. -/
structure Dip where
  move_number : ℕ
  score_before : ScoreField
  score_after : ScoreField
  delta : DipDelta
deriving DecidableEq, Repr

/-- The body of the loop of `find_significant_dips` for one adjacent pair
`(prev, curr)`: the cp/cp branch emits a dip iff `abs(delta) >= threshold`;
otherwise (at least one mate-typed evaluation) a dip is always emitted with
the `"mate involved"` sentinel and the raw evaluations. -/
def pairDip (threshold : ℤ) (p c : EvalPoint) : Option Dip :=
  match p.evaluation, c.evaluation with
  | .cp a, .cp b =>
      if threshold ≤ |b - a| then
        some { move_number := c.move_number, score_before := .num a,
               score_after := .num b, delta := .cpDelta (b - a) }
      else
        none
  | .cp a, .mate b =>
      some { move_number := c.move_number, score_before := .raw (.cp a),
             score_after := .raw (.mate b), delta := .mateInvolved }
  | .mate a, .cp b =>
      some { move_number := c.move_number, score_before := .raw (.mate a),
             score_after := .raw (.cp b), delta := .mateInvolved }
  | .mate a, .mate b =>
      some { move_number := c.move_number, score_before := .raw (.mate a),
             score_after := .raw (.mate b), delta := .mateInvolved }

/-- `analyse.find_significant_dips(evals, threshold)`: scan adjacent pairs
`(i-1, i)` for `i = 1 .. len(evals)-1`, collecting the dips in order. -/
def find_significant_dips : List EvalPoint → ℤ → List Dip
  | [], _ => []
  | [_], _ => []
  | p :: c :: rest, t => (pairDip t p c).toList ++ find_significant_dips (c :: rest) t

/-- The loop of `find_significant_dips` visits exactly the adjacent pairs of
the input, i.e. the elements of `evals.zip evals.tail`. -/
lemma find_significant_dips_eq_filterMap (evals : List EvalPoint) (t : ℤ) :
    find_significant_dips evals t =
      (evals.zip evals.tail).filterMap (fun pc => pairDip t pc.1 pc.2) := by
  match evals with
  | [] => rfl
  | [_] => rfl
  | p :: c :: rest =>
      rw [find_significant_dips, find_significant_dips_eq_filterMap (c :: rest) t]
      show _ = List.filterMap _ ((p, c) :: (c :: rest).zip rest)
      rw [List.filterMap_cons]
      cases h : pairDip t p c <;> simp [h]

/-- A dip produced from the pair `(p, c)` carries `c`'s move number. -/
lemma pairDip_move_number {t : ℤ} {p c : EvalPoint} {d : Dip}
    (h : pairDip t p c = some d) : d.move_number = c.move_number := by
  obtain ⟨mp, pe⟩ := p
  obtain ⟨mc, ce⟩ := c
  cases pe <;> cases ce <;> simp only [pairDip] at h
  · split at h
    · simp only [Option.some.injEq] at h
      subst h
      rfl
    · exact Option.noConfusion h
  all_goals
    simp only [Option.some.injEq] at h
    subst h
    rfl

/-- The move numbers of the detected dips form a sublist of the move numbers
of the tail of the input sequence. -/
lemma dips_map_mn_sublist (t : ℤ) : ∀ evals : List EvalPoint,
    List.Sublist ((find_significant_dips evals t).map Dip.move_number)
      (evals.tail.map EvalPoint.move_number)
  | [] => by simp [find_significant_dips]
  | [_] => by simp [find_significant_dips]
  | p :: c :: rest => by
      rw [find_significant_dips, List.map_append]
      have ih := dips_map_mn_sublist t (c :: rest)
      cases h : pairDip t p c with
      | none => simpa using ih.cons c.move_number
      | some d =>
          have hd : d.move_number = c.move_number := pairDip_move_number h
          simpa [hd] using ih.cons₂ c.move_number

/-- C1: for every adjacent pair whose evaluations are both centipawn-typed,
the dip detector computes `delta = curr.value - prev.value` and emits a Dip
for that pair (with `score_before`/`score_after` holding the bare values)
iff `abs(delta) >= threshold`; `find_significant_dips` is exactly the scan
of this pair rule over the adjacent pairs; in particular `[100, 300]` at
threshold 150 yields exactly one Dip with `delta = 200`, and `[100, 200]`
yields none. -/
theorem find_significant_dips_cp_spec :
    (∀ (t : ℤ) (p c : EvalPoint) (a b : ℤ),
      p.evaluation = .cp a → c.evaluation = .cp b →
      pairDip t p c =
        if t ≤ |b - a| then
          some { move_number := c.move_number, score_before := .num a,
                 score_after := .num b, delta := .cpDelta (b - a) }
        else none)
    ∧ (∀ (t : ℤ) (evals : List EvalPoint),
        find_significant_dips evals t =
          (evals.zip evals.tail).filterMap (fun pc => pairDip t pc.1 pc.2))
    ∧ find_significant_dips
        [⟨1, .cp 100⟩, ⟨2, .cp 300⟩] 150 =
        [{ move_number := 2, score_before := .num 100, score_after := .num 300,
           delta := .cpDelta 200 }]
    ∧ find_significant_dips [⟨1, .cp 100⟩, ⟨2, .cp 200⟩] 150 = [] := by
  refine ⟨?_, fun t evals => find_significant_dips_eq_filterMap evals t, ?_, ?_⟩
  · intro t p c a b hp hc
    obtain ⟨mp, pe⟩ := p
    obtain ⟨mc, ce⟩ := c
    dsimp only at hp hc
    subst hp
    subst hc
    rfl
  · decide
  · decide

/-- Witness for C1: the pair rule instantiated at the concrete pair
`(⟨1, cp 100⟩, ⟨2, cp 300⟩)` with threshold 150. -/
theorem find_significant_dips_cp_spec_witness :
    pairDip 150 ⟨1, .cp 100⟩ ⟨2, .cp 300⟩ =
      if (150 : ℤ) ≤ |(300 : ℤ) - 100| then
        some { move_number := 2, score_before := .num 100,
               score_after := .num 300, delta := .cpDelta (300 - 100) }
      else none :=
  find_significant_dips_cp_spec.1 150 ⟨1, .cp 100⟩ ⟨2, .cp 300⟩ 100 300 rfl rfl

/-- C2: every adjacent pair in which at least one evaluation is mate-typed
contributes a Dip to the output, whatever the threshold, with `delta` the
mate-involved sentinel and `score_before`/`score_after` the raw evaluations
of the pair. -/
theorem find_significant_dips_mate_spec (t : ℤ) (evals : List EvalPoint)
    (p c : EvalPoint) (hmem : (p, c) ∈ evals.zip evals.tail)
    (hmate : p.evaluation.isMate = true ∨ c.evaluation.isMate = true) :
    { move_number := c.move_number, score_before := .raw p.evaluation,
      score_after := .raw c.evaluation, delta := .mateInvolved : Dip } ∈
      find_significant_dips evals t := by
  rw [find_significant_dips_eq_filterMap]
  refine List.mem_filterMap.mpr ⟨(p, c), hmem, ?_⟩
  show pairDip t p c = _
  obtain ⟨mp, pe⟩ := p
  obtain ⟨mc, ce⟩ := c
  cases pe <;> cases ce <;> simp [pairDip, Evaluation.isMate] at hmate ⊢

/-- Witness for C2: the pair `(⟨1, cp 30⟩, ⟨2, mate 2⟩)` inside a concrete
three-point sequence yields its mate dip even at a huge threshold. -/
theorem find_significant_dips_mate_spec_witness :
    { move_number := 2, score_before := .raw (.cp 30),
      score_after := .raw (.mate 2), delta := .mateInvolved : Dip } ∈
      find_significant_dips [⟨1, .cp 30⟩, ⟨2, .mate 2⟩, ⟨3, .cp 40⟩] 1000000 :=
  find_significant_dips_mate_spec 1000000 _ ⟨1, .cp 30⟩ ⟨2, .mate 2⟩
    (by decide) (Or.inr rfl)

/-- Counterexample to C9 as stated: over an arbitrary EvalPoint sequence —
here one with decreasing move numbers — the returned Dips are not
monotonically increasing in move_number. -/
theorem dips_monotone_cex :
    ¬ ((find_significant_dips [⟨9, .cp 0⟩, ⟨5, .cp 1000⟩, ⟨1, .cp 0⟩] 150).map
        Dip.move_number).Pairwise (· ≤ ·) := by
  decide

/-- C9 (amended): every Dip's move_number occurs among the input EvalPoints'
move numbers, for every sequence and threshold; and whenever the input's
move numbers are monotonically increasing — as they are for the sequences
`evaluate_game` produces — the Dips' move numbers are monotonically
increasing as well. -/
theorem dips_move_number_spec :
    (∀ (t : ℤ) (evals : List EvalPoint) (d : Dip),
      d ∈ find_significant_dips evals t →
      d.move_number ∈ evals.map EvalPoint.move_number)
    ∧ (∀ (t : ℤ) (evals : List EvalPoint),
        (evals.map EvalPoint.move_number).Pairwise (· ≤ ·) →
        ((find_significant_dips evals t).map Dip.move_number).Pairwise (· ≤ ·)) := by
  constructor
  · intro t evals d hd
    have hsub := dips_map_mn_sublist t evals
    have h1 : d.move_number ∈ evals.tail.map EvalPoint.move_number :=
      hsub.subset (List.mem_map_of_mem Dip.move_number hd)
    exact ((List.tail_sublist evals).map EvalPoint.move_number).subset h1
  · intro t evals hmono
    have hsub := dips_map_mn_sublist t evals
    have htail := (List.tail_sublist evals).map EvalPoint.move_number
    exact List.Pairwise.sublist (hsub.trans htail) hmono

/-- Witness for C9 (amended): on the concrete increasing sequence
`[⟨1, cp 0⟩, ⟨2, cp 400⟩, ⟨3, cp 0⟩]` the first dip's move number 2 occurs
in the input, and the dips are monotone. -/
theorem dips_move_number_spec_witness :
    (2 ∈ ([⟨1, .cp 0⟩, ⟨2, .cp 400⟩, ⟨3, .cp 0⟩] : List EvalPoint).map
        EvalPoint.move_number)
    ∧ ((find_significant_dips [⟨1, .cp 0⟩, ⟨2, .cp 400⟩, ⟨3, .cp 0⟩] 150).map
        Dip.move_number).Pairwise (· ≤ ·) := by
  constructor
  · exact dips_move_number_spec.1 150 [⟨1, .cp 0⟩, ⟨2, .cp 400⟩, ⟨3, .cp 0⟩]
      { move_number := 2, score_before := .num 0, score_after := .num 400,
        delta := .cpDelta 400 } (by decide)
  · exact dips_move_number_spec.2 150 [⟨1, .cp 0⟩, ⟨2, .cp 400⟩, ⟨3, .cp 0⟩]
      (by decide)

/-! ## Position Evaluator (`analyse.evaluate_game`)

The chess library is abstracted: a `Move` is an opaque identifier, a board
is the list of moves pushed so far from the standard initial position
(White to move first), `turn` is derived from the ply count, and `fen` is
the position fingerprint, identified with the move prefix. -/

/-- An opaque move identifier (the embedding never inspects moves). -/
abbrev Move := ℕ

/-- A `python-chess` board: the moves pushed so far from the standard
initial position. -/
structure Board where
  moves : List Move
deriving DecidableEq, Repr

/-- `board.push(move)`. -/
def Board.push (b : Board) (m : Move) : Board := ⟨b.moves ++ [m]⟩

/-- `board.turn` (`true` = White to move): White moves on even ply counts. -/
def Board.turn (b : Board) : Bool := b.moves.length % 2 == 0

/-- `board.fen()`, used only as an exact position fingerprint. -/
def Board.fen (b : Board) : List Move := b.moves

/-- `game.board()` for a standard game: the initial position. -/
def Board.start : Board := ⟨[]⟩

/-- The two per-side evaluation sequences built by `evaluate_game`:
`{"white": [...], "black": [...]}`. -/
structure Evaluations where
  white : List EvalPoint
  black : List EvalPoint
deriving DecidableEq, Repr

/-- The loop of `evaluate_game`: push each move, ask the engine for the
resulting position's evaluation (`none` raises a RuntimeError naming the
move index), and append `{"move_number": idx+1, "evaluation": ev}` to the
side that just moved — black iff the side to move afterwards is White. -/
def evalLoop (engine : List Move → Option Evaluation) :
    List Move → Board → ℕ → Evaluations → Except String Evaluations
  | [], _, _, acc => .ok acc
  | m :: rest, b, idx, acc =>
      match engine (b.push m).fen with
      | none => .error ("Stockfish returned no evaluation at move " ++ toString (idx + 1))
      | some ev =>
          evalLoop engine rest (b.push m) (idx + 1)
            (if (b.push m).turn then
              { acc with black := acc.black ++ [⟨idx + 1, ev⟩] }
             else
              { acc with white := acc.white ++ [⟨idx + 1, ev⟩] })

/-- `analyse.evaluate_game(pgn, stockfish)`, applied to the parsed move
list of the game. -/
def evaluate_game (engine : List Move → Option Evaluation) (moves : List Move) :
    Except String Evaluations :=
  evalLoop engine moves Board.start 0 ⟨[], []⟩

/-- The global ply indices `idx+1, …, idx+n` handed out by the loop. -/
def pliesFrom (idx n : ℕ) : List ℕ := (List.range n).map (fun k => idx + k + 1)

lemma pliesFrom_succ (idx n : ℕ) :
    pliesFrom idx (n + 1) = (idx + 1) :: pliesFrom (idx + 1) n := by
  unfold pliesFrom
  rw [List.range_succ_eq_map, List.map_cons, List.map_map]
  refine congrArg (List.cons (idx + 1)) (List.map_congr_left ?_)
  intro k _
  simp only [Function.comp_apply]
  omega

lemma evalLoop_length (engine : List Move → Option Evaluation) :
    ∀ (moves : List Move) (b : Board) (idx : ℕ) (acc evs : Evaluations),
    evalLoop engine moves b idx acc = .ok evs →
    evs.white.length + evs.black.length
      = acc.white.length + acc.black.length + moves.length
  | [], b, idx, acc, evs, h => by
      simp only [evalLoop] at h
      injection h with h
      subst h
      simp
  | m :: rest, b, idx, acc, evs, h => by
      simp only [evalLoop] at h
      split at h
      · exact Except.noConfusion h
      · cases hturn : (b.push m).turn <;> rw [hturn] at h <;>
          simp only [if_true, if_false, Bool.false_eq_true] at h <;>
          have ih := evalLoop_length engine rest (b.push m) (idx + 1) _ evs h <;>
          simp only [List.length_append, List.length_cons, List.length_nil] at ih ⊢ <;>
          omega

lemma evalLoop_mn (engine : List Move → Option Evaluation) :
    ∀ (moves : List Move) (b : Board) (idx : ℕ) (acc evs : Evaluations),
    b.moves.length = idx →
    evalLoop engine moves b idx acc = .ok evs →
    evs.white.map EvalPoint.move_number
        = acc.white.map EvalPoint.move_number
          ++ (pliesFrom idx moves.length).filter (fun p => p % 2 = 1)
    ∧ evs.black.map EvalPoint.move_number
        = acc.black.map EvalPoint.move_number
          ++ (pliesFrom idx moves.length).filter (fun p => p % 2 = 0)
  | [], b, idx, acc, evs, hb, h => by
      simp only [evalLoop] at h
      injection h with h
      subst h
      simp [pliesFrom]
  | m :: rest, b, idx, acc, evs, hb, h => by
      simp only [evalLoop] at h
      split at h
      · exact Except.noConfusion h
      · have hb2 : (b.push m).moves.length = idx + 1 := by
          simp [Board.push, hb]
        have hturn : (b.push m).turn = ((idx + 1) % 2 == 0) := by
          simp [Board.turn, hb2]
        rcases Nat.mod_two_eq_zero_or_one (idx + 1) with hpar | hpar
        · rw [hturn, hpar] at h
          simp only [beq_self_eq_true, if_true] at h
          have ih := evalLoop_mn engine rest (b.push m) (idx + 1) _ evs hb2 h
          rw [List.length_cons, pliesFrom_succ]
          have hfo : ((idx + 1) :: pliesFrom (idx + 1) rest.length).filter
              (fun p => p % 2 = 1)
              = (pliesFrom (idx + 1) rest.length).filter (fun p => p % 2 = 1) := by
            rw [List.filter_cons]
            simp [hpar]
          have hfe : ((idx + 1) :: pliesFrom (idx + 1) rest.length).filter
              (fun p => p % 2 = 0)
              = (idx + 1) :: (pliesFrom (idx + 1) rest.length).filter
                  (fun p => p % 2 = 0) := by
            rw [List.filter_cons]
            simp [hpar]
          rw [hfo, hfe]
          refine ⟨ih.1, ?_⟩
          rw [ih.2]
          simp
        · rw [hturn, hpar] at h
          simp only [Nat.reduceBEq, Bool.false_eq_true, if_false] at h
          have ih := evalLoop_mn engine rest (b.push m) (idx + 1) _ evs hb2 h
          rw [List.length_cons, pliesFrom_succ]
          have hfo : ((idx + 1) :: pliesFrom (idx + 1) rest.length).filter
              (fun p => p % 2 = 1)
              = (idx + 1) :: (pliesFrom (idx + 1) rest.length).filter
                  (fun p => p % 2 = 1) := by
            rw [List.filter_cons]
            simp [hpar]
          have hfe : ((idx + 1) :: pliesFrom (idx + 1) rest.length).filter
              (fun p => p % 2 = 0)
              = (pliesFrom (idx + 1) rest.length).filter (fun p => p % 2 = 0) := by
            rw [List.filter_cons]
            simp [hpar]
          rw [hfo, hfe]
          refine ⟨?_, ih.2⟩
          rw [ih.1]
          simp

lemma pliesFrom_zero (n : ℕ) :
    pliesFrom 0 n = (List.range n).map (fun k => k + 1) := by
  unfold pliesFrom
  exact List.map_congr_left (fun k _ => by omega)

lemma filter_even_eq_not_odd (l : List ℕ) :
    l.filter (fun p => p % 2 = 0)
      = l.filter (fun p => !(decide (p % 2 = 1))) :=
  List.filter_congr (fun p _ => by
    rcases Nat.mod_two_eq_zero_or_one p with h2 | h2 <;> simp [h2])

/-- C3: whenever `evaluate_game` succeeds, it has produced exactly one
EvalPoint per half-move played — the per-side counts add up to the number
of half-moves, and the move numbers across the two sides are exactly
`1, …, n`, each attributed once. -/
theorem evaluate_game_length_spec (engine : List Move → Option Evaluation)
    (moves : List Move) (evs : Evaluations)
    (h : evaluate_game engine moves = .ok evs) :
    evs.white.length + evs.black.length = moves.length
    ∧ List.Perm
        (evs.white.map EvalPoint.move_number ++ evs.black.map EvalPoint.move_number)
        ((List.range moves.length).map (fun k => k + 1)) := by
  have hlen := evalLoop_length engine moves Board.start 0 ⟨[], []⟩ evs h
  have hmn := evalLoop_mn engine moves Board.start 0 ⟨[], []⟩ evs rfl h
  constructor
  · simpa using hlen
  · rw [hmn.1, hmn.2]
    simp only [List.map_nil, List.nil_append]
    rw [← pliesFrom_zero, filter_even_eq_not_odd]
    exact List.filter_append_perm _ _

/-- Witness for C3: a three-move game against a concrete engine yields two
white points and one black point. -/
theorem evaluate_game_length_spec_witness :
    evaluate_game (fun fen => some (.cp fen.length)) [0, 0, 0]
        = .ok ⟨[⟨1, .cp 1⟩, ⟨3, .cp 3⟩], [⟨2, .cp 2⟩]⟩
    ∧ (⟨[⟨1, .cp 1⟩, ⟨3, .cp 3⟩], [⟨2, .cp 2⟩]⟩ : Evaluations).white.length
        + (⟨[⟨1, .cp 1⟩, ⟨3, .cp 3⟩], [⟨2, .cp 2⟩]⟩ : Evaluations).black.length
      = ([0, 0, 0] : List Move).length :=
  ⟨rfl, (evaluate_game_length_spec (fun fen => some (.cp fen.length)) [0, 0, 0]
    ⟨[⟨1, .cp 1⟩, ⟨3, .cp 3⟩], [⟨2, .cp 2⟩]⟩ rfl).1⟩

/-- C10: the `move_number` stored in every EvalPoint is the 1-based global
half-move (ply) index of the whole game: White's move numbers are exactly
the odd ply indices and Black's exactly the even ones; consequently, for an
odd (White) ply `p`, the style-heuristic test `move_number <= 10` is
equivalent to being within White's first 5 full moves. -/
theorem move_number_global_ply_spec :
    (∀ (engine : List Move → Option Evaluation) (moves : List Move)
        (evs : Evaluations),
      evaluate_game engine moves = .ok evs →
      evs.white.map EvalPoint.move_number
          = ((List.range moves.length).map (fun k => k + 1)).filter
              (fun p => p % 2 = 1)
      ∧ evs.black.map EvalPoint.move_number
          = ((List.range moves.length).map (fun k => k + 1)).filter
              (fun p => p % 2 = 0))
    ∧ (∀ p : ℕ, p % 2 = 1 → (p ≤ 10 ↔ (p + 1) / 2 ≤ 5)) := by
  constructor
  · intro engine moves evs h
    have hmn := evalLoop_mn engine moves Board.start 0 ⟨[], []⟩ evs rfl h
    rw [← pliesFrom_zero]
    refine ⟨?_, ?_⟩
    · rw [hmn.1]
      simp
    · rw [hmn.2]
      simp
  · intro p hp
    omega

/-- Witness for C10: the same three-move game gives White the odd plies
`[1, 3]` and Black the even ply `[2]`. -/
theorem move_number_global_ply_spec_witness :
    ([⟨1, .cp 1⟩, ⟨3, .cp 3⟩] : List EvalPoint).map EvalPoint.move_number
        = ((List.range 3).map (fun k => k + 1)).filter (fun p => p % 2 = 1)
    ∧ ([⟨2, .cp 2⟩] : List EvalPoint).map EvalPoint.move_number
        = ((List.range 3).map (fun k => k + 1)).filter (fun p => p % 2 = 0) :=
  move_number_global_ply_spec.1 (fun fen => some (.cp fen.length)) [0, 0, 0]
    ⟨[⟨1, .cp 1⟩, ⟨3, .cp 3⟩], [⟨2, .cp 2⟩]⟩ rfl

/-! ## Batch Runner (`analyse.main` / `build_profile.build_player_profile_from_file`)

Both batch loops have the same shape: iterate the games with their index,
analyze each inside a try/except, append successes to the output list, and
log each failure as "Error analyzing game {i+1}: e". The loop is modelled
generically in the per-game analysis function; the log is the second
component of the result. -/

/-- The batch loop, threading the 0-based position `i`; failures are logged
with the 1-based index `i + 1` exactly as printed by the code. -/
def batchLoop {P A E : Type} (analyze : P → Except E A) :
    List P → ℕ → List A × List (ℕ × E)
  | [], _ => ([], [])
  | p :: rest, i =>
      let r := batchLoop analyze rest (i + 1)
      match analyze p with
      | .ok a => (a :: r.1, r.2)
      | .error e => (r.1, (i + 1, e) :: r.2)

/-- The whole batch run over an archive of raw games: the analyzed records
that succeeded, in order, and the logged failures with their indices. -/
def batch_run {P A E : Type} (analyze : P → Except E A) (pgns : List P) :
    List A × List (ℕ × E) :=
  batchLoop analyze pgns 0

lemma batchLoop_spec {P A E : Type} (analyze : P → Except E A) :
    ∀ (pgns : List P) (i : ℕ),
    batchLoop analyze pgns i
      = (pgns.filterMap (fun p => (analyze p).toOption),
         (pgns.enumFrom i).filterMap (fun ip =>
            match analyze ip.2 with
            | .ok _ => none
            | .error e => some (ip.1 + 1, e)))
  | [], i => by simp [batchLoop]
  | p :: rest, i => by
      rw [batchLoop, batchLoop_spec analyze rest (i + 1)]
      cases h : analyze p <;>
        simp [List.enumFrom, List.filterMap_cons, h, Except.toOption]

/-- C4: a failure while analyzing one game does not disturb the others —
the batch output is exactly the successfully analyzed records in their
original order (failed games are omitted, with no placeholder), and every
failure is logged with its game's 1-based positional index; in particular,
for 3 games where game 2 fails, the output holds exactly the records of
games 1 and 3 and the log holds exactly game 2's failure. -/
theorem batch_run_isolation_spec :
    (∀ {P A E : Type} (analyze : P → Except E A) (pgns : List P),
      batch_run analyze pgns
        = (pgns.filterMap (fun p => (analyze p).toOption),
           pgns.enum.filterMap (fun ip =>
              match analyze ip.2 with
              | .ok _ => none
              | .error e => some (ip.1 + 1, e))))
    ∧ batch_run (fun n => if n = 2 then .error "unparseable move text"
                          else .ok n) [1, 2, 3]
        = ([1, 3], [(2, "unparseable move text")]) := by
  constructor
  · intro P A E analyze pgns
    exact batchLoop_spec analyze pgns 0
  · decide

/-! ## Opening Classifier (`analyse.get_opening_from_eco`)

`eco_db` is process-global, lazily initialized by `init_eco_db` on first
use. The classifier is modelled as a function of the init outcome
(`initRes`: the merged database, or the exception raised while opening or
decoding the partitioned files) and of the current global `eco_db`. The
whole body runs inside `try/except Exception`, which turns any error into
the string `"Error: <description>"`. -/

/-- One record of the ECO database: `{"eco": ..., "name": ...}`. -/
structure EcoRec where
  eco : String
  name : String
deriving DecidableEq, Repr

/-- The merged ECO lookup table, keyed by exact position fingerprint. -/
abbrev EcoDb := List (List Move × EcoRec)

/-- The replay loop of `get_opening_from_eco`: push each move, look the
resulting fingerprint up, and let later (deeper) matches overwrite the
recorded opening string. -/
def ecoLoop (db : EcoDb) : List Move → Board → Option String → Option String
  | [], _, opening => opening
  | m :: rest, b, opening =>
      match db.lookup (b.push m).fen with
      | some r => ecoLoop db rest (b.push m) (some (r.eco ++ " - " ++ r.name))
      | none => ecoLoop db rest (b.push m) opening

/-- `analyse.get_opening_from_eco(pgn_str)`, applied to the parsed move
list: lazily initialize the database if the global one is empty, replay the
game, and return the deepest match or `"Unknown"`; any exception — including
one raised by `init_eco_db` — is returned as `"Error: <description>"`. -/
def get_opening_from_eco (initRes : Except String EcoDb) (eco_db : EcoDb)
    (moves : List Move) : String :=
  match (if eco_db.isEmpty then initRes else .ok eco_db) with
  | .error e => "Error: " ++ e
  | .ok db => (ecoLoop db moves Board.start none).getD "Unknown"

/-- The positions reached after each move of the game, as fingerprints. -/
def positionsOf (moves : List Move) : List (List Move) :=
  (List.range moves.length).map (fun i => moves.take (i + 1))

/-- The opening string a database hit at position `p` yields. -/
def ecoLabel (db : EcoDb) (p : List Move) : Option String :=
  (db.lookup p).map (fun r => r.eco ++ " - " ++ r.name)

lemma positionsOf_cons (m : Move) (rest : List Move) :
    positionsOf (m :: rest) = [m] :: (positionsOf rest).map (fun p => m :: p) := by
  unfold positionsOf
  rw [List.length_cons, List.range_succ_eq_map, List.map_cons, List.map_map,
    List.map_map]
  exact congrArg (List.cons [m]) (List.map_congr_left (fun k _ => rfl))

lemma ecoLoop_spec (db : EcoDb) : ∀ (moves : List Move) (b : Board)
    (acc : Option String),
    ecoLoop db moves b acc
      = ((((positionsOf moves).map (fun p => b.moves ++ p)).filterMap
            (ecoLabel db)).getLast?).or acc
  | [], b, acc => by simp [ecoLoop, positionsOf]
  | m :: rest, b, acc => by
      rw [ecoLoop, positionsOf_cons]
      have hpush : (b.push m).moves = b.moves ++ [m] := rfl
      have hmap : ((positionsOf rest).map (fun p => m :: p)).map
            (fun p => b.moves ++ p)
          = (positionsOf rest).map (fun p => (b.push m).moves ++ p) := by
        rw [List.map_map, hpush]
        exact List.map_congr_left (fun p _ => by simp)
      rw [List.map_cons, List.filterMap_cons, hmap]
      cases hl : ecoLabel db (b.moves ++ [m]) with
      | none =>
          have hlook : db.lookup (b.push m).fen = none := by
            have : (db.lookup (b.moves ++ [m])).map
                (fun r => r.eco ++ " - " ++ r.name) = none := hl
            cases h2 : db.lookup (b.moves ++ [m])
            · exact h2
            · rw [h2] at this
              exact Option.noConfusion this
          rw [hlook]
          exact ecoLoop_spec db rest (b.push m) acc
      | some s =>
          obtain ⟨r, hr, hs⟩ : ∃ r, db.lookup (b.moves ++ [m]) = some r
              ∧ r.eco ++ " - " ++ r.name = s := by
            unfold ecoLabel at hl
            cases h2 : db.lookup (b.moves ++ [m])
            · rw [h2] at hl
              exact Option.noConfusion hl
            · rw [h2] at hl
              exact ⟨_, rfl, Option.some.injEq _ _ ▸ by
                simpa using hl⟩
          have hlook : db.lookup (b.push m).fen = some r := hr
          rw [hlook]
          show ecoLoop db rest (b.push m) (some (r.eco ++ " - " ++ r.name)) = _
          rw [hs, ecoLoop_spec db rest (b.push m) (some s)]
          show _ = (s :: ((positionsOf rest).map
              (fun p => (b.push m).moves ++ p)).filterMap (ecoLabel db)).getLast?.or acc
          cases htail : ((positionsOf rest).map
              (fun p => (b.push m).moves ++ p)).filterMap (ecoLabel db) with
          | nil => simp
          | cons x xs =>
              rw [List.getLast?_cons_cons]
              cases hx : (x :: xs).getLast? with
              | none => simp at hx
              | some y => simp [hx]

/-- C7: with a loaded (or successfully lazily-initialized) database, the
classifier replays the game, looks each resulting position fingerprint up,
and returns `"<ECO code> - <name>"` of the deepest position with a database
hit — the last hit along the prefixes wins — or `"Unknown"` when no
position of the game matches any entry. -/
theorem get_opening_from_eco_spec :
    (∀ (db : EcoDb) (initRes : Except String EcoDb) (moves : List Move),
      db ≠ [] →
      get_opening_from_eco initRes db moves
        = (((positionsOf moves).filterMap (ecoLabel db)).getLast?).getD "Unknown")
    ∧ (∀ (db : EcoDb) (moves : List Move),
      get_opening_from_eco (.ok db) [] moves
        = (((positionsOf moves).filterMap (ecoLabel db)).getLast?).getD "Unknown") := by
  have key : ∀ (db : EcoDb) (moves : List Move),
      (ecoLoop db moves Board.start none).getD "Unknown"
        = (((positionsOf moves).filterMap (ecoLabel db)).getLast?).getD "Unknown" := by
    intro db moves
    rw [ecoLoop_spec db moves Board.start none]
    have hmap : (positionsOf moves).map (fun p => Board.start.moves ++ p)
        = positionsOf moves := by
      simp [Board.start]
    rw [hmap]
    cases ((positionsOf moves).filterMap (ecoLabel db)).getLast? <;> rfl
  constructor
  · intro db initRes moves hdb
    unfold get_opening_from_eco
    have hne : db.isEmpty = false := by
      cases db
      · exact absurd rfl hdb
      · rfl
    rw [hne]
    exact key db moves
  · intro db moves
    unfold get_opening_from_eco
    exact key db moves

/-- Witness for C7: a two-entry database; the game `[5, 6, 7]` matches at
depths 1 and 2 and the deeper match wins; the game `[9]` matches nothing
and yields `"Unknown"`. -/
theorem get_opening_from_eco_spec_witness :
    get_opening_from_eco (.error "unused") [([5], ⟨"B00", "King Pawn"⟩),
        ([5, 6], ⟨"C20", "King Pawn Game"⟩)] [5, 6, 7]
      = "C20 - King Pawn Game"
    ∧ get_opening_from_eco (.error "unused") [([5], ⟨"B00", "King Pawn"⟩),
        ([5, 6], ⟨"C20", "King Pawn Game"⟩)] [9]
      = "Unknown" := by
  constructor
  · rw [get_opening_from_eco_spec.1 [([5], ⟨"B00", "King Pawn"⟩),
      ([5, 6], ⟨"C20", "King Pawn Game"⟩)] (.error "unused") [5, 6, 7]
      (by decide)]
    rfl
  · rw [get_opening_from_eco_spec.1 [([5], ⟨"B00", "King Pawn"⟩),
      ([5, 6], ⟨"C20", "King Pawn Game"⟩)] (.error "unused") [9]
      (by decide)]
    rfl

/-- Counterexample to C6 as stated: when the global table is empty and
loading it fails with a concrete error, `get_opening_from_eco` returns the
degraded per-classification string `"Error: ..."` — the blanket
`try/except` of the classifier catches the load failure, so it does not
propagate to the caller. -/
theorem eco_load_failure_cex :
    get_opening_from_eco (.error "database file open failed") [] [0]
      = "Error: database file open failed" := rfl

/-- C6 (amended): a failure while lazily loading the opening lookup table
inside the Opening Classifier is caught by the classifier's blanket
exception handler and degraded to the per-classification result
`"Error: <description>"` for every game; it never propagates to the
caller. -/
theorem eco_load_failure_degraded (e : String) (moves : List Move) :
    get_opening_from_eco (.error e) [] moves = "Error: " ++ e := rfl

/-! ## Profile Builder (`build_profile.py`)

`AnalyzedGame` is the record `analyse.analyze_pgn` produces. The configured
username (`CHESSCOM_USERNAME`) is passed explicitly. The Python string
primitives used by the profile builder — `str.lower`, substring
containment, `str.split("+")` and `int(...)` — are given executable
models over the underlying character lists. `round(x, 2)` is
round-half-to-even at two decimals on exact rationals. -/

/-- ASCII lowercasing of one character (`str.lower`). -/
def lowerChar (c : Char) : Char :=
  if 65 ≤ c.toNat ∧ c.toNat ≤ 90 then Char.ofNat (c.toNat + 32) else c

/-- `s.lower()`. -/
def toLowerStr (s : String) : String := ⟨s.data.map lowerChar⟩

/-- Whether `needle` occurs as a contiguous substring of `hay`. -/
def hasInfix : List Char → List Char → Bool
  | [], needle => needle.isEmpty
  | c :: t, needle => needle.isPrefixOf (c :: t) || hasInfix t needle

/-- Python `needle in hay` for strings. -/
def containsSub (hay needle : String) : Bool := hasInfix hay.data needle.data

/-- The digit string read by `int(...)`; `none` models ValueError. -/
def digitsToNat? (l : List Char) : Option ℕ :=
  if l.isEmpty then none
  else l.foldl (fun acc c =>
    match acc with
    | none => none
    | some n =>
        if 48 ≤ c.toNat ∧ c.toNat ≤ 57 then some (n * 10 + (c.toNat - 48))
        else none)
    (some 0)

/-- Python `int(s)` on a trimmed string (optional sign, then digits). -/
def parseIntStr? (s : List Char) : Option ℤ :=
  match s with
  | '-' :: rest => (digitsToNat? rest).map (fun n => -(n : ℤ))
  | rest => (digitsToNat? rest).map (fun n => (n : ℤ))

/-- Python `s.split("+")`. -/
def splitOnPlus : List Char → List (List Char)
  | [] => [[]]
  | c :: t =>
      let r := splitOnPlus t
      if c = '+' then [] :: r
      else
        match r with
        | [] => [[c]]
        | h :: t2 => (c :: h) :: t2

/-- The structured analysis record of one game. -/
structure AnalyzedGame where
  pgn : String
  result : String
  time_control : String
  white : String
  white_elo : ℤ
  black : String
  black_elo : ℤ
  termination : String
  white_dips : List Dip
  black_dips : List Dip
deriving DecidableEq, Repr

/-- `game["white"].lower() == CHESSCOM_USERNAME.lower()`. -/
def isWhitePlayer (username : String) (g : AnalyzedGame) : Bool :=
  toLowerStr g.white == toLowerStr username

/-- The named player's own-side dips. -/
def my_dips (username : String) (g : AnalyzedGame) : List Dip :=
  if isWhitePlayer username g then g.white_dips else g.black_dips

/-- `build_profile.parse_time_control(tc)`: `"base+increment"`, with the
fallback `(600, 0)` on any parse failure. -/
def parse_time_control (tc : String) : ℤ × ℤ :=
  if 2 ≤ (splitOnPlus tc.data).length then
    match splitOnPlus tc.data with
    | [b, i] =>
        match parseIntStr? b, parseIntStr? i with
        | some bv, some iv => (bv, iv)
        | _, _ => (600, 0)
    | _ => (600, 0)
  else
    match parseIntStr? tc.data with
    | some bv => (bv, 0)
    | none => (600, 0)

/-- A dip counting as a major blunder: integer delta with `abs(delta) > 150`
(the mate sentinel is a string, so `isinstance(delta, int)` excludes it). -/
def isBigBlunder (d : Dip) : Bool :=
  match d.delta with
  | .cpDelta v => 150 < |v|
  | .mateInvolved => false

/-- `build_profile.is_time_trouble(game)`: short base time and at least two
major blunders at `move_number >= 60`. -/
def is_time_trouble (username : String) (game : AnalyzedGame) : Bool :=
  if 900 ≤ (parse_time_control game.time_control).1 then false
  else
    2 ≤ ((my_dips username game).filter (fun d =>
      isBigBlunder d && decide (60 ≤ d.move_number))).length

/-- The "tactical" per-game test: at least 3 major blunders. -/
def styleTactical (username : String) (g : AnalyzedGame) : Bool :=
  3 ≤ ((my_dips username g).filter isBigBlunder).length

/-- The "aggressive" per-game test: a major blunder at `move_number <= 10`. -/
def styleAggressive (username : String) (g : AnalyzedGame) : Bool :=
  ((my_dips username g).filter isBigBlunder).any (fun d => d.move_number ≤ 10)

/-- The "positional" per-game test: at most 2 own-side dips. -/
def stylePositional (username : String) (g : AnalyzedGame) : Bool :=
  (my_dips username g).length ≤ 2

/-- The "defensive" per-game test: termination text contains "timeout" or
"abandoned". -/
def styleDefensive (g : AnalyzedGame) : Bool :=
  containsSub (toLowerStr g.termination) "timeout"
    || containsSub (toLowerStr g.termination) "abandoned"

/-- Python 3 `round` to an integer: nearest, ties to even. -/
def pyRound (q : ℚ) : ℤ :=
  if q - ⌊q⌋ < 1 / 2 then ⌊q⌋
  else if (1 : ℚ) / 2 < q - ⌊q⌋ then ⌊q⌋ + 1
  else if ⌊q⌋ % 2 = 0 then ⌊q⌋ else ⌊q⌋ + 1

/-- `round(x, 2)`. -/
def pyRound2 (q : ℚ) : ℚ := (pyRound (q * 100) : ℚ) / 100

/-- The style fractions of `build_profile.analyze_style`. -/
structure StyleProfile where
  aggressive : ℚ
  positional : ℚ
  tactical : ℚ
  defensive : ℚ
  time_trouble_prone : ℚ
deriving DecidableEq, Repr

/-- `build_profile.analyze_style(analyzed_games)`: count the games passing
each per-game heuristic, then normalize each count by the number of games,
rounding to 2 decimals; on an empty collection the final division raises
(ZeroDivisionError). -/
def analyze_style (username : String) (games : List AnalyzedGame) :
    Except String StyleProfile :=
  if games.length = 0 then .error "ZeroDivisionError: division by zero"
  else
    .ok {
      aggressive :=
        pyRound2 ((games.countP (styleAggressive username) : ℚ) / games.length),
      positional :=
        pyRound2 ((games.countP (stylePositional username) : ℚ) / games.length),
      tactical :=
        pyRound2 ((games.countP (styleTactical username) : ℚ) / games.length),
      defensive :=
        pyRound2 ((games.countP styleDefensive : ℚ) / games.length),
      time_trouble_prone :=
        pyRound2 ((games.countP (is_time_trouble username) : ℚ) / games.length) }

/-- Shorthand for building a concrete `AnalyzedGame`. -/
def mkGame (p result tc w bl term : String) (wd bd : List Dip) : AnalyzedGame :=
  { pgn := p, result := result, time_control := tc, white := w, white_elo := 0,
    black := bl, black_elo := 0, termination := term, white_dips := wd,
    black_dips := bd }

/-- A centipawn dip used to populate concrete games. -/
def dipStub : Dip :=
  { move_number := 1, score_before := .num 0, score_after := .num 200,
    delta := .cpDelta 200 }

/-- Four analyzed games of which exactly one (the last) has at most 2
own-side dips for the white player "Hero". -/
def gamesC5 : List AnalyzedGame :=
  [mkGame "g1" "1-0" "600" "Hero" "Foe" "" (List.replicate 3 dipStub) [],
   mkGame "g2" "1-0" "600" "Hero" "Foe" "" (List.replicate 3 dipStub) [],
   mkGame "g3" "1-0" "600" "Hero" "Foe" "" (List.replicate 3 dipStub) [],
   mkGame "g4" "1-0" "600" "Hero" "Foe" "" [] []]

/-- C5: `analyze_style` on an empty collection fails (the normalization
would divide by zero) instead of returning NaN/undefined fractions; on a
non-empty collection every style fraction is the count of games passing the
heuristic divided by the total, rounded to 2 decimals; in particular 1
positional game out of 4 gives `positional = 0.25`. -/
theorem analyze_style_spec :
    (∀ u : String, analyze_style u [] = .error "ZeroDivisionError: division by zero")
    ∧ (∀ (u : String) (games : List AnalyzedGame), games ≠ [] →
        ∃ sp, analyze_style u games = .ok sp
          ∧ sp.aggressive
              = pyRound2 ((games.countP (styleAggressive u) : ℚ) / games.length)
          ∧ sp.positional
              = pyRound2 ((games.countP (stylePositional u) : ℚ) / games.length)
          ∧ sp.tactical
              = pyRound2 ((games.countP (styleTactical u) : ℚ) / games.length)
          ∧ sp.defensive
              = pyRound2 ((games.countP styleDefensive : ℚ) / games.length)
          ∧ sp.time_trouble_prone
              = pyRound2 ((games.countP (is_time_trouble u) : ℚ) / games.length))
    ∧ (gamesC5.length = 4 ∧ gamesC5.countP (stylePositional "hero") = 1
        ∧ ∃ sp, analyze_style "hero" gamesC5 = .ok sp ∧ sp.positional = 25 / 100) := by
  refine ⟨fun u => rfl, ?_, ?_, ?_, ?_⟩
  · intro u games h
    unfold analyze_style
    rw [if_neg (by simpa [List.length_eq_zero] using h)]
    exact ⟨_, rfl, rfl, rfl, rfl, rfl, rfl⟩
  · decide
  · decide
  · refine ⟨_, rfl, ?_⟩
    show pyRound2 ((gamesC5.countP (stylePositional "hero") : ℚ) / gamesC5.length)
      = 25 / 100
    have hc : gamesC5.countP (stylePositional "hero") = 1 := by decide
    have hl : gamesC5.length = 4 := by decide
    rw [hc, hl]
    norm_num [pyRound2, pyRound]

/-- Witness for C5: the non-empty-collection characterization instantiated
at the concrete four-game dataset. -/
theorem analyze_style_spec_witness :
    gamesC5 ≠ []
    ∧ ∃ sp, analyze_style "hero" gamesC5 = .ok sp
        ∧ sp.aggressive
            = pyRound2 ((gamesC5.countP (styleAggressive "hero") : ℚ) / gamesC5.length)
        ∧ sp.positional
            = pyRound2 ((gamesC5.countP (stylePositional "hero") : ℚ) / gamesC5.length)
        ∧ sp.tactical
            = pyRound2 ((gamesC5.countP (styleTactical "hero") : ℚ) / gamesC5.length)
        ∧ sp.defensive
            = pyRound2 ((gamesC5.countP styleDefensive : ℚ) / gamesC5.length)
        ∧ sp.time_trouble_prone
            = pyRound2 ((gamesC5.countP (is_time_trouble "hero") : ℚ) / gamesC5.length) :=
  ⟨by decide, analyze_style_spec.2.1 "hero" gamesC5 (by decide)⟩

/-! ## Representative sampling (`build_profile.select_representative_games`) -/

/-- A game paired with its score (the player's own-side dip count). -/
abbrev ScoredGame := AnalyzedGame × ℕ

/-- `game_score(game)`: the named player's own-side dip count. -/
def game_score (u : String) (g : AnalyzedGame) : ℕ := (my_dips u g).length

/-- The categorization loop: route each game into the win/loss/draw bucket
from the named player's perspective, paired with its score; games with any
other result string are skipped. -/
def categorizeGames (u : String) :
    List AnalyzedGame → List ScoredGame × List ScoredGame × List ScoredGame
  | [] => ([], [], [])
  | g :: rest =>
      let r := categorizeGames u rest
      let entry : ScoredGame := (g, game_score u g)
      if g.result = "1/2-1/2" then (r.1, r.2.1, entry :: r.2.2)
      else if g.result = "1-0" then
        if isWhitePlayer u g then (entry :: r.1, r.2.1, r.2.2)
        else (r.1, entry :: r.2.1, r.2.2)
      else if g.result = "0-1" then
        if isWhitePlayer u g then (r.1, entry :: r.2.1, r.2.2)
        else (entry :: r.1, r.2.1, r.2.2)
      else r

/-- Stable insertion keyed on the score. -/
def insertByScore (x : ScoredGame) : List ScoredGame → List ScoredGame
  | [] => [x]
  | y :: t => if x.2 ≤ y.2 then x :: y :: t else y :: insertByScore x t

/-- Python's `sorted(games, key=lambda x: x[1])`: a stable sort by the
score. A stable sort by a total key order has a unique result, realized
here as insertion sort. -/
def sortByScore : List ScoredGame → List ScoredGame
  | [] => []
  | x :: t => insertByScore x (sortByScore t)

/-- The three sample lists of the returned `result_sample` dict. -/
structure RepSample where
  win : List String
  loss : List String
  draw : List String
deriving DecidableEq, Repr

/-- Sort a bucket by ascending score, keep the first `maxPer`, project the
move-texts. -/
def pickTop (maxPer : ℕ) (bucket : List ScoredGame) : List String :=
  ((sortByScore bucket).take maxPer).map (fun x => x.1.pgn)

/-- `build_profile.select_representative_games(analyzed_games, max_per_category)`. -/
def select_representative_games (u : String) (games : List AnalyzedGame)
    (maxPer : ℕ) : RepSample :=
  ⟨pickTop maxPer (categorizeGames u games).1,
   pickTop maxPer (categorizeGames u games).2.1,
   pickTop maxPer (categorizeGames u games).2.2⟩

/-- Membership test of the win bucket. -/
def isWinFor (u : String) (g : AnalyzedGame) : Bool :=
  (g.result == "1-0" && isWhitePlayer u g)
    || (g.result == "0-1" && !isWhitePlayer u g)

/-- Membership test of the loss bucket. -/
def isLossFor (u : String) (g : AnalyzedGame) : Bool :=
  (g.result == "0-1" && isWhitePlayer u g)
    || (g.result == "1-0" && !isWhitePlayer u g)

/-- Membership test of the draw bucket. -/
def isDrawRes (g : AnalyzedGame) : Bool := g.result == "1/2-1/2"

lemma categorizeGames_eq_filter (u : String) : ∀ games : List AnalyzedGame,
    categorizeGames u games
      = ((games.filter (isWinFor u)).map (fun g => (g, game_score u g)),
         (games.filter (isLossFor u)).map (fun g => (g, game_score u g)),
         (games.filter isDrawRes).map (fun g => (g, game_score u g)))
  | [] => rfl
  | g :: rest => by
      have ih := categorizeGames_eq_filter u rest
      simp only [categorizeGames, ih]
      by_cases h1 : g.result = "1/2-1/2"
      · simp [List.filter_cons, isWinFor, isLossFor, isDrawRes, h1]
      · by_cases h2 : g.result = "1-0"
        · cases hw : isWhitePlayer u g <;>
            simp [List.filter_cons, isWinFor, isLossFor, isDrawRes, h1, h2, hw]
        · by_cases h3 : g.result = "0-1"
          · cases hw : isWhitePlayer u g <;>
              simp [List.filter_cons, isWinFor, isLossFor, isDrawRes, h1, h2, h3, hw]
          · simp [List.filter_cons, isWinFor, isLossFor, isDrawRes, h1, h2, h3]

lemma insertByScore_perm (x : ScoredGame) : ∀ l : List ScoredGame,
    List.Perm (insertByScore x l) (x :: l)
  | [] => List.Perm.refl _
  | y :: t => by
      unfold insertByScore
      split
      · exact List.Perm.refl _
      · exact ((insertByScore_perm x t).cons y).trans (List.Perm.swap x y t)

lemma sortByScore_perm : ∀ l : List ScoredGame, List.Perm (sortByScore l) l
  | [] => List.Perm.refl _
  | x :: t =>
      (insertByScore_perm x (sortByScore t)).trans ((sortByScore_perm t).cons x)

lemma insertByScore_sorted (x : ScoredGame) : ∀ l : List ScoredGame,
    l.Pairwise (fun a b => a.2 ≤ b.2) →
    (insertByScore x l).Pairwise (fun a b => a.2 ≤ b.2)
  | [], _ => by simp [insertByScore]
  | y :: t, h => by
      rw [List.pairwise_cons] at h
      obtain ⟨hy, ht⟩ := h
      unfold insertByScore
      split
      · rename_i hxy
        refine List.Pairwise.cons ?_ (List.pairwise_cons.mpr ⟨hy, ht⟩)
        intro z hz
        rcases List.mem_cons.mp hz with rfl | hz2
        · exact hxy
        · exact le_trans hxy (hy z hz2)
      · rename_i hxy
        refine List.Pairwise.cons ?_ (insertByScore_sorted x t ht)
        intro z hz
        rcases List.mem_cons.mp ((insertByScore_perm x t).subset hz) with rfl | hz2
        · omega
        · exact hy z hz2

lemma sortByScore_sorted : ∀ l : List ScoredGame,
    (sortByScore l).Pairwise (fun a b => a.2 ≤ b.2)
  | [] => List.Pairwise.nil
  | x :: t => insertByScore_sorted x (sortByScore t) (sortByScore_sorted t)

/-- Three losses for white player "Hero" with own-side dip counts 5, 1, 3. -/
def gamesC8 : List AnalyzedGame :=
  [mkGame "g1" "0-1" "600" "Hero" "Foe" "" (List.replicate 5 dipStub) [],
   mkGame "g2" "0-1" "600" "Hero" "Foe" "" (List.replicate 1 dipStub) [],
   mkGame "g3" "0-1" "600" "Hero" "Foe" "" (List.replicate 3 dipStub) []]

/-- C8: representative sampling partitions the games into win/loss/draw
buckets from the named player's perspective (case-insensitive username
comparison), ranks each bucket by ascending own-side dip count with a
stable order (the sort result is a sorted permutation of the bucket), and
keeps the first `maxPer` move-texts; for a loss bucket with dip counts
`[5, 1, 3]` and top-2 requested, the result is the games with counts 1 and
3, in that order. -/
theorem select_representative_games_spec :
    (∀ (u : String) (games : List AnalyzedGame) (maxPer : ℕ),
      select_representative_games u games maxPer
        = { win := pickTop maxPer
              ((games.filter (isWinFor u)).map (fun g => (g, game_score u g))),
            loss := pickTop maxPer
              ((games.filter (isLossFor u)).map (fun g => (g, game_score u g))),
            draw := pickTop maxPer
              ((games.filter isDrawRes).map (fun g => (g, game_score u g))) })
    ∧ (∀ l : List ScoredGame, List.Perm (sortByScore l) l)
    ∧ (∀ l : List ScoredGame, (sortByScore l).Pairwise (fun a b => a.2 ≤ b.2))
    ∧ (select_representative_games "hero" gamesC8 2).loss = ["g2", "g3"] := by
  refine ⟨?_, sortByScore_perm, sortByScore_sorted, ?_⟩
  · intro u games maxPer
    unfold select_representative_games
    rw [categorizeGames_eq_filter]
  · decide
